import Mathlib

/-!
# Oscilloscope: the sample-to-point pipeline of `src/Oscilloscope.cpp`

A shallow embedding of `Main::getSourceSignal`, `Main::interpretSignal`,
`Main::processSamples`, `Main::commitSamples`, `Main::renderPoints`,
`NormalizeVector` and `DrawLine`.

Conventions of the embedding

* `float`/`double` values are elements of a field `α`. The pipeline
  (`getSourceSignal`, `interpretSignal`, the point of a sample) is written in
  exact arithmetic with `cos` and `sin` as parameters. The geometry helpers
  (`VectorLength`, `NormalizeVector`, `DrawLine`) take the rounding to `float`
  and to `double` and the square root as parameters, so that nothing is
  assumed of a rounded result. All values are finite: an overflow to an
  infinity is not represented.
* `size_t current_sample`, which `processSamples` computes from the clock by a
  product in `double`, is not computed here: its value is an input of the tick,
  next to the clock values.
* `std::deque<sf::Vector2f>` is a `List (α × α)`, front first.
* `size_t` is unsigned of 64 bits and `int` is signed of 32 bits. The
  loop variable `int sample` of `processSamples` is the cursor narrowed
  (`toInt`) and is widened again (`toSizeT`) where the source compares it
  with a `size_t` or passes it to `getSourceSignal`; `m_points.size() - 1`
  wraps modulo `2 ^ 64`.
* time points are integers counting nanoseconds.
* undefined behaviour (an iterator or index outside the deque, overflow of
  `sample++`) is the result `none`.
* the `alu` sound library is not part of the repository: what the program
  calls of it is a parameter (`SoundBuffer`, `CaptureApi`).
-/

namespace Oscilloscope

/-! ## Data model -/

/-- The enum `Main::VisualizationMode`. -/
inductive VisualizationMode where
  | Points
  | Lines
  deriving DecidableEq, Repr

/-- The enum `Main::SignalSource`. -/
inductive SignalSource where
  | Time
  | LeftChannel
  | RightChannel
  deriving DecidableEq, Repr

/-- The enum `Main::SignalInterpretation`. -/
inductive SignalInterpretation where
  | Cartesian
  | Polar
  deriving DecidableEq, Repr

/-- What the program reads of `alu::SoundBuffer` and of its format.
`normalizeSample off` is `format.normalizeSample(getSamples() + off)`. The
sample rate enters a tick through its `current_sample` only. -/
structure SoundBuffer (α : Type) where
  getSampleRate : Nat
  getSampleCount : Nat
  getSampleSize : Nat
  getBytesPerSample : Nat
  normalizeSample : Nat → α

/-- The methods of `alu::SoundCaptureDevice` that `commitSamples` calls. The
device was bound to `m_sound_buffer` by `setBuffer`, so `commit` and `start`
act on the device together with that buffer. -/
structure CaptureApi (Dev α : Type) where
  isRecording : Dev → Bool
  commit : Dev → SoundBuffer α → Dev × SoundBuffer α
  start : Dev → SoundBuffer α → Dev × SoundBuffer α

/-- The members of `class Main` that the signal pipeline and `renderPoints`
read or write. -/
structure Main (Dev α : Type) where
  m_visualization_mode : VisualizationMode
  m_x_axis_source : SignalSource
  m_y_axis_source : SignalSource
  m_signal_interpretation : SignalInterpretation
  m_capture_device : Dev
  m_sound_buffer : SoundBuffer α
  /-- Value of `m_render_texture.getSize()`. -/
  m_render_texture_size : Nat × Nat
  /-- Contents of the deque `m_points`, front first. -/
  m_points : List (α × α)
  /-- An `int` in the source, kept in `1 .. 10000` by the slider "Points limit";
  only values `≥ 0` are considered. -/
  m_max_points : Nat
  m_recording_interval_ms : Nat
  /-- Nanoseconds on the clock of `std::chrono::high_resolution_clock`. -/
  m_recording_start_time : Int
  m_last_processed_sample : Nat
  m_x_amplification : α
  m_y_amplification : α
  m_thickness : α
  m_color : Nat × Nat × Nat

/-! ## Signal processing -/

section Signal

variable {Dev α : Type} [Field α]

/-- The method `Main::getSourceSignal`: the channel value, or the position in
the window, mapped from `[0, 1]` to `[-1, 1]`. The quotient of the `Time` case
is the one of the field; `processSamples` calls it with
`sample < getSampleCount` only, hence with a positive divisor. -/
def getSourceSignal (m_sound_buffer : SoundBuffer α) (source : SignalSource)
    (sample : Nat) : α :=
  let channels := m_sound_buffer.getSampleSize * sample
  let signal : α :=
    match source with
    | SignalSource.LeftChannel => m_sound_buffer.normalizeSample channels
    | SignalSource.RightChannel =>
        m_sound_buffer.normalizeSample (channels + m_sound_buffer.getBytesPerSample)
    | SignalSource.Time => (sample : α) / (m_sound_buffer.getSampleCount : α)
  2 * signal - 1

/-- The method `Main::interpretSignal`, returning `result` for `signal`. -/
def interpretSignal (cos sin : α → α) (m_signal_interpretation : SignalInterpretation)
    (signal : α × α) : α × α :=
  match m_signal_interpretation with
  | SignalInterpretation.Cartesian => (signal.1, signal.2)
  | SignalInterpretation.Polar => (signal.2 * cos signal.1, signal.2 * sin signal.1)

/-- The narrowing `int sample = m_last_processed_sample`: the low 32 bits of the
`size_t` value, read in two's complement (`4294967296` is `2 ^ 32`,
`2147483648` is `2 ^ 31`). -/
def toInt (n : Nat) : Int :=
  if n % 4294967296 < 2147483648 then ((n % 4294967296 : Nat) : Int)
  else ((n % 4294967296 : Nat) : Int) - 4294967296

/-- An `int` converted to `size_t`, as in the comparison `sample < std::min(...)`
and in the call `getSourceSignal(source, sample)` (`18446744073709551616` is
`2 ^ 64`). -/
def toSizeT (i : Int) : Nat :=
  (i % 18446744073709551616).toNat

/-- The loop `for (int sample = ...; sample < bound; sample++)` from the value
`sample` on: the indices passed to `getSourceSignal`, in order, and whether the
loop ends by its test (`true`) or runs into the overflow of `sample++` at
`INT_MAX = 2147483647` (`false`). The first argument counts the values `sample`
can still take; `sampleLoop_fuel` shows that it never runs out. -/
def sampleLoop (bound : Nat) : Nat → Int → List Nat × Bool
  | 0, _ => ([], false)
  | fuel + 1, sample =>
    if toSizeT sample < bound then
      if sample < 2147483647 then
        let rest := sampleLoop bound fuel (sample + 1)
        (toSizeT sample :: rest.1, rest.2)
      else ([toSizeT sample], false)
    else ([], true)

/-- The number of `int` values from `sample` up to `INT_MAX`. -/
def valuesLeft (sample : Int) : Nat :=
  (2147483648 - sample).toNat

/-- Iteration space of the loop of `processSamples` started at the cursor;
`none` when `sample++` overflows. -/
def dueSamples (bound m_last_processed_sample : Nat) : Option (List Nat) :=
  let sample := toInt m_last_processed_sample
  let r := sampleLoop bound (valuesLeft sample) sample
  if r.2 then some r.1 else none

/-- The body of the loop of `processSamples`: the point of one sample. -/
def tracePoint (cos sin : α → α) (s : Main Dev α) (sample : Nat) : α × α :=
  let center : α × α :=
    ((s.m_render_texture_size.1 : α) / 2, (s.m_render_texture_size.2 : α) / 2)
  let signal : α × α :=
    (getSourceSignal s.m_sound_buffer s.m_x_axis_source sample,
     getSourceSignal s.m_sound_buffer s.m_y_axis_source sample)
  let result := interpretSignal cos sin s.m_signal_interpretation signal
  (center.1 + s.m_x_amplification * result.1, center.2 - s.m_y_amplification * result.2)

/-- The call `deque::erase(first, last)` on iterators given as offsets from
`begin()`; a range that is not inside the deque is undefined. -/
def erase {P : Type} (d : List P) (first last : Int) : Option (List P) :=
  if 0 ≤ first ∧ first ≤ last ∧ last ≤ (d.length : Int) then
    some (d.take first.toNat ++ d.drop last.toNat)
  else none

/-- The step "Deleting extra points" of `processSamples`:
`erase(end() - (size() - m_max_points) - 1, end())` when `size() > m_max_points`. -/
def deleteExtraPoints {P : Type} (m_max_points : Nat) (m_points : List P) :
    Option (List P) :=
  if m_points.length > m_max_points then
    erase m_points
      ((m_points.length : Int) - ((m_points.length - m_max_points : Nat) : Int) - 1)
      (m_points.length : Int)
  else some m_points

/-- The method `Main::commitSamples`; `now` is the clock value it reads. -/
def commitSamples (api : CaptureApi Dev α) (now : Int) (s : Main Dev α) : Main Dev α :=
  let r :=
    if api.isRecording s.m_capture_device then
      api.commit s.m_capture_device s.m_sound_buffer
    else
      api.start s.m_capture_device s.m_sound_buffer
  { s with
    m_capture_device := r.1
    m_sound_buffer := r.2
    m_recording_start_time := now
    m_last_processed_sample := 0 }

/-- The method `Main::processSamples`; `now` is the clock value read on entry,
`now2` the one read by `commitSamples` when the recording is restarted, and
`current_sample` the value the method computes as
`getSampleRate() * duration<double>(recording_time).count()`. -/
def processSamples (api : CaptureApi Dev α) (cos sin : α → α) (now now2 : Int)
    (current_sample : Nat) (s : Main Dev α) : Option (Main Dev α) := do
  let recording_time := now - s.m_recording_start_time
  let samples ← dueSamples (min s.m_sound_buffer.getSampleCount current_sample)
    s.m_last_processed_sample
  let points := samples.foldl (fun d sample => tracePoint cos sin s sample :: d) s.m_points
  let kept ← deleteExtraPoints s.m_max_points points
  let s1 := { s with m_points := kept, m_last_processed_sample := current_sample }
  if recording_time > (s.m_recording_interval_ms : Int) * 1000000 then
    pure (commitSamples api now2 s1)
  else
    pure s1

/-- The sample indices a tick passes to `getSourceSignal`, in the order of the
loop (also when the loop ends in an overflow). -/
def requestedSamples (current_sample : Nat) (s : Main Dev α) : List Nat :=
  (sampleLoop (min s.m_sound_buffer.getSampleCount current_sample)
    (valuesLeft (toInt s.m_last_processed_sample)) (toInt s.m_last_processed_sample)).1

/-- The points a tick computes, in the order the loop produces them. -/
def producedPoints (cos sin : α → α) (current_sample : Nat) (s : Main Dev α) :
    List (α × α) :=
  (requestedSamples current_sample s).map (tracePoint cos sin s)

end Signal

/-! ## Runs of the main loop -/

section Runs

variable {Dev α : Type} [Field α]

/-- What `Main::start` does to the pipeline: `commitSamples` before the loop,
`processSamples` once per frame; each carries the clock values it reads, a
tick also its `current_sample`. -/
inductive Event where
  | tick (now now2 : Int) (current_sample : Nat)
  | restart (now : Int)

/-- One event, applied to the program state and to a log of every point
produced so far, the most recent first. -/
def step (api : CaptureApi Dev α) (cos sin : α → α) (e : Event)
    (w : Main Dev α × List (α × α)) : Option (Main Dev α × List (α × α)) :=
  match e with
  | Event.tick now now2 current_sample =>
    (processSamples api cos sin now now2 current_sample w.1).map
      (fun t => (t, (producedPoints cos sin current_sample w.1).reverse ++ w.2))
  | Event.restart now => some (commitSamples api now w.1, w.2)

/-- A sequence of events, applied from left to right. -/
def run (api : CaptureApi Dev α) (cos sin : α → α) :
    List Event → Main Dev α × List (α × α) → Option (Main Dev α × List (α × α))
  | [], w => some w
  | e :: es, w => (step api cos sin e w).bind (run api cos sin es)

end Runs

/-! ## Rendering -/

section Rendering

variable {Dev α : Type} [Field α]

/-- Alpha channel computed by the lambda `point_color` of `renderPoints` for
index `i` of a deque of `size` points (before `sf::Color` narrows it). -/
def point_color (size i : Nat) : α :=
  255 * (1 - (i : α) / (size : α)) ^ 2

/-- A call that `renderPoints` makes on `m_render_texture`. -/
inductive DrawCall (α : Type) where
  /-- The call `m_render_texture.draw(circle)`, with radius, position and alpha. -/
  | circle (radius : α) (position : α × α) (alpha : α)
  /-- The call `DrawLine(m_render_texture, a, b, color_a, color_b, m_thickness)`. -/
  | line (a b : α × α) (alpha_a alpha_b thickness : α)

/-- The loop `for (size_t i = start; i < bound; i++) body(i)` of `renderPoints`;
`body` is `none` when it reads outside the deque, the first argument counts
the iterations left. -/
def drawLoop (bound : Nat) (body : Nat → Option (DrawCall α)) :
    Nat → Nat → Option (List (DrawCall α))
  | 0, _ => some []
  | fuel + 1, i =>
    if i < bound then
      match body i with
      | none => none
      | some call => (drawLoop bound body fuel (i + 1)).map (fun rest => call :: rest)
    else some []

/-- The bound `m_points.size() - 1` of the loop of the `Lines` case, an
unsigned 64-bit subtraction. -/
def linesBound (size : Nat) : Nat :=
  (size + 2 ^ 64 - 1) % 2 ^ 64

/-- The method `Main::renderPoints`: the draw calls of one frame, in order. -/
def renderPoints (s : Main Dev α) : Option (List (DrawCall α)) :=
  let size := s.m_points.length
  match s.m_visualization_mode with
  | VisualizationMode.Points =>
    drawLoop size
      (fun i => (s.m_points[i]?).map
        (fun p => DrawCall.circle (1 / 2 * s.m_thickness) p (point_color size i)))
      size 0
  | VisualizationMode.Lines =>
    drawLoop (linesBound size)
      (fun i =>
        match s.m_points[i]?, s.m_points[i + 1]? with
        | some a, some b =>
          some (DrawCall.line a b (point_color size i) (point_color size (i + 1))
            s.m_thickness)
        | _, _ => none)
      (linesBound size) 0

/-- Quotient of two floats where the divisor can be zero: the result is then
NaN or an infinity, which is no element of `α`. -/
def fdiv [DecidableEq α] (x y : α) : Option α :=
  if y = 0 then none else some (x / y)

/-- The function `VectorLength` on a `sf::Vector2f`: products, sum and square
root are `float` operations, each rounded by `toFloat`. -/
def VectorLength (toFloat sqrt : α → α) (vec : α × α) : α :=
  toFloat (sqrt (toFloat (toFloat (vec.1 * vec.1) + toFloat (vec.2 * vec.2))))

/-- The function `NormalizeVector` on a `sf::Vector2f`: each component is
divided by the length in `double` and stored as a `float`. -/
def NormalizeVector [DecidableEq α] (toFloat toDouble sqrt : α → α) (vec : α × α) :
    Option (α × α) := do
  let length := VectorLength toFloat sqrt vec
  let x ← fdiv vec.1 length
  let y ← fdiv vec.2 length
  pure (toFloat (toDouble x), toFloat (toDouble y))

/-- The function `Perpendicular`. -/
def Perpendicular (vec : α × α) : α × α :=
  (vec.2, -vec.1)

/-- The function `DrawLine`: the four vertices of the triangle strip, each with
its colour. -/
def DrawLine [DecidableEq α] {C : Type} (toFloat toDouble sqrt : α → α) (a b : α × α)
    (color_a color_b : C) (thickness : α) : Option (List ((α × α) × C)) := do
  let n ← NormalizeVector toFloat toDouble sqrt (toFloat (b.1 - a.1), toFloat (b.2 - a.2))
  let p := Perpendicular n
  let offset : α × α :=
    (toFloat (toFloat (p.1 * thickness) * (1 / 2)), toFloat (toFloat (p.2 * thickness) * (1 / 2)))
  pure [((toFloat (a.1 - offset.1), toFloat (a.2 - offset.2)), color_a),
        ((toFloat (a.1 + offset.1), toFloat (a.2 + offset.2)), color_a),
        ((toFloat (b.1 - offset.1), toFloat (b.2 - offset.2)), color_b),
        ((toFloat (b.1 + offset.1), toFloat (b.2 + offset.2)), color_b)]

end Rendering

/-! ## Concrete states used to evaluate the definitions -/

/-- A capture device reduced to its recording flag; `commit` and `start` leave
the buffer as it is. -/
def demoApi : CaptureApi Bool ℚ where
  isRecording := fun d => d
  commit := fun _ b => (true, b)
  start := fun _ b => (true, b)

/-- A stereo buffer of `count` frames at 1000 Hz, two one-byte channels per
frame, whose byte at offset `off` normalizes to `(off mod 8) / 8`. -/
def demoBuffer (count : Nat) : SoundBuffer ℚ where
  getSampleRate := 1000
  getSampleCount := count
  getSampleSize := 2
  getBytesPerSample := 1
  normalizeSample := fun off => ((off % 8 : Nat) : ℚ) / 8

/-- The default settings of `class Main` (Cartesian, left and right channel,
amplification 1000, interval 50 ms) on a 1000 x 1000 texture, recording since
time 0. In Cartesian mode `interpretSignal` calls neither `cos` nor `sin`; the
evaluations below pass `id` for both. -/
def demoMain (mode : VisualizationMode) (max_points count cursor : Nat)
    (points : List (ℚ × ℚ)) : Main Bool ℚ where
  m_visualization_mode := mode
  m_x_axis_source := SignalSource.LeftChannel
  m_y_axis_source := SignalSource.RightChannel
  m_signal_interpretation := SignalInterpretation.Cartesian
  m_capture_device := true
  m_sound_buffer := demoBuffer count
  m_render_texture_size := (1000, 1000)
  m_points := points
  m_max_points := max_points
  m_recording_interval_ms := 50
  m_recording_start_time := 0
  m_last_processed_sample := cursor
  m_x_amplification := 1000
  m_y_amplification := 1000
  m_thickness := 4
  m_color := (177, 224, 255)

/-! ## Lemmas on the loop and the eviction step -/

section Lemmas

variable {Dev α : Type}

theorem toSizeT_natCast (n : Nat) (h : n < 18446744073709551616) : toSizeT (n : Int) = n := by
  unfold toSizeT
  omega

theorem toInt_of_lt (n : Nat) (h : n < 2147483648) : toInt n = (n : Int) := by
  unfold toInt
  have h1 : n % 4294967296 = n := Nat.mod_eq_of_lt (by omega)
  rw [h1, if_pos h]

theorem toInt_range (n : Nat) : -2147483648 ≤ toInt n ∧ toInt n < 2147483648 := by
  unfold toInt
  split <;> omega

/-- Every index the loop passes on is below its bound. -/
theorem sampleLoop_lt (bound : Nat) :
    ∀ (fuel : Nat) (sample : Int), ∀ i ∈ (sampleLoop bound fuel sample).1, i < bound := by
  intro fuel
  induction fuel with
  | zero =>
    intro sample i hi
    simp [sampleLoop] at hi
  | succ n ih =>
    intro sample i hi
    by_cases hc : toSizeT sample < bound
    · by_cases hlt : sample < 2147483647
      · simp only [sampleLoop, hc, hlt, if_true] at hi
        rcases List.mem_cons.mp hi with h | h
        · rw [h]; exact hc
        · exact ih (sample + 1) i h
      · simp only [sampleLoop, hc, hlt, if_true, if_false, List.mem_singleton] at hi
        rw [hi]; exact hc
    · simp [sampleLoop, hc] at hi

/-- The count of values left is enough: the loop does the same with any two
counts that are at least `valuesLeft sample`. -/
theorem sampleLoop_fuel (bound : Nat) :
    ∀ (fuel1 fuel2 : Nat) (sample : Int), sample < 2147483648 →
      valuesLeft sample ≤ fuel1 → valuesLeft sample ≤ fuel2 →
      sampleLoop bound fuel1 sample = sampleLoop bound fuel2 sample := by
  intro fuel1
  induction fuel1 with
  | zero =>
    intro fuel2 sample hs h1 _
    unfold valuesLeft at h1
    omega
  | succ n ih =>
    intro fuel2 sample hs h1 h2
    cases fuel2 with
    | zero =>
      unfold valuesLeft at h2
      omega
    | succ m =>
      by_cases hc : toSizeT sample < bound
      · by_cases hlt : sample < 2147483647
        · have e := ih m (sample + 1) (by omega)
            (by unfold valuesLeft at h1 ⊢; omega) (by unfold valuesLeft at h2 ⊢; omega)
          simp only [sampleLoop, hc, hlt, if_true, e]
        · simp only [sampleLoop, hc, hlt, if_true, if_false]
      · simp only [sampleLoop, hc, if_false]

/-- From a non-negative start, a loop that ends by its test has run over
`sample, sample + 1, ..., bound - 1`. -/
theorem sampleLoop_of_nonneg (bound : Nat) :
    ∀ (fuel : Nat) (sample : Int), 0 ≤ sample → sample < 2147483648 →
      valuesLeft sample ≤ fuel → (sampleLoop bound fuel sample).2 = true →
      (sampleLoop bound fuel sample).1 = List.range' sample.toNat (bound - sample.toNat) := by
  intro fuel
  induction fuel with
  | zero =>
    intro sample _ hs h1 _
    unfold valuesLeft at h1
    omega
  | succ n ih =>
    intro sample h0 hs h1 hflag
    have hsz : toSizeT sample = sample.toNat := by
      unfold toSizeT
      omega
    by_cases hc : toSizeT sample < bound
    · by_cases hlt : sample < 2147483647
      · simp only [sampleLoop, hc, hlt, if_true] at hflag ⊢
        rw [ih (sample + 1) (by omega) (by omega)
          (by unfold valuesLeft at h1 ⊢; omega) hflag, hsz]
        rw [hsz] at hc
        have e1 : (sample + 1).toNat = sample.toNat + 1 := by omega
        have e2 : bound - sample.toNat = (bound - (sample.toNat + 1)) + 1 := by omega
        rw [e1, e2, List.range'_succ]
      · simp [sampleLoop, hc, hlt] at hflag
    · simp only [sampleLoop, hc, if_false]
      rw [hsz] at hc
      have e : bound - sample.toNat = 0 := by omega
      rw [e]
      rfl

/-- The loop ends by its test when the bound is below `2 ^ 31`. -/
theorem sampleLoop_defined (bound : Nat) (hb : bound < 2147483648) :
    ∀ (fuel : Nat) (sample : Int), -2147483648 ≤ sample → sample < 2147483648 →
      valuesLeft sample ≤ fuel → (sampleLoop bound fuel sample).2 = true := by
  intro fuel
  induction fuel with
  | zero =>
    intro sample _ hs h1
    unfold valuesLeft at h1
    omega
  | succ n ih =>
    intro sample h0 hs h1
    by_cases hc : toSizeT sample < bound
    · by_cases hlt : sample < 2147483647
      · simp only [sampleLoop, hc, hlt, if_true]
        exact ih (sample + 1) (by omega) (by omega) (by unfold valuesLeft at h1 ⊢; omega)
      · exfalso
        unfold toSizeT at hc
        omega
    · simp [sampleLoop, hc]

theorem dueSamples_eq_requested (bound cursor : Nat) (l : List Nat)
    (h : dueSamples bound cursor = some l) :
    l = (sampleLoop bound (valuesLeft (toInt cursor)) (toInt cursor)).1 ∧
      (sampleLoop bound (valuesLeft (toInt cursor)) (toInt cursor)).2 = true := by
  unfold dueSamples at h
  by_cases hf : (sampleLoop bound (valuesLeft (toInt cursor)) (toInt cursor)).2 = true
  · simp only [hf, if_true, Option.some.injEq] at h
    exact ⟨h.symm, hf⟩
  · simp [hf] at h

/-- With fewer than `2 ^ 31` as bound the loop is defined for every cursor. -/
theorem dueSamples_defined (bound cursor : Nat) (hb : bound < 2147483648) :
    dueSamples bound cursor
      = some (sampleLoop bound (valuesLeft (toInt cursor)) (toInt cursor)).1 := by
  have hf := sampleLoop_defined bound hb (valuesLeft (toInt cursor)) (toInt cursor)
    (toInt_range cursor).1 (toInt_range cursor).2 (Nat.le_refl _)
  simp [dueSamples, hf]

/-- With the cursor below `2 ^ 31`, a defined loop runs over
`cursor, ..., bound - 1`. -/
theorem dueSamples_of_lt (bound cursor : Nat) (l : List Nat) (hc : cursor < 2147483648)
    (h : dueSamples bound cursor = some l) : l = List.range' cursor (bound - cursor) := by
  obtain ⟨hl, hf⟩ := dueSamples_eq_requested bound cursor l h
  rw [hl]
  rw [toInt_of_lt cursor hc] at hf ⊢
  have := sampleLoop_of_nonneg bound _ (cursor : Int) (by omega) (by omega) (Nat.le_refl _) hf
  simpa using this

theorem foldl_emplace_front {P : Type} (f : Nat → P) (l : List Nat) (d : List P) :
    l.foldl (fun d sample => f sample :: d) d = (l.map f).reverse ++ d := by
  induction l generalizing d with
  | nil => rfl
  | cons x xs ih => simp [List.foldl_cons, ih]

theorem deleteExtraPoints_of_le {P : Type} (m : Nat) (d : List P) (h : d.length ≤ m) :
    deleteExtraPoints m d = some d := by
  simp [deleteExtraPoints, Nat.not_lt.mpr h]

theorem deleteExtraPoints_of_gt {P : Type} (m : Nat) (d : List P) (hm : 1 ≤ m)
    (h : m < d.length) : deleteExtraPoints m d = some (d.take (m - 1)) := by
  have e : ((d.length : Int) - ((d.length - m : Nat) : Int) - 1) = ((m - 1 : Nat) : Int) := by
    omega
  simp only [deleteExtraPoints, gt_iff_lt, h, if_true, e, erase]
  have c : (0 : Int) ≤ ((m - 1 : Nat) : Int) ∧ ((m - 1 : Nat) : Int) ≤ (d.length : Int)
      ∧ (d.length : Int) ≤ (d.length : Int) := by omega
  simp [c]

theorem deleteExtraPoints_zero {P : Type} (d : List P) (h : d ≠ []) :
    deleteExtraPoints 0 d = none := by
  have hl : 0 < d.length := List.length_pos.mpr h
  have e : ((d.length : Int) - ((d.length - 0 : Nat) : Int) - 1) = -1 := by
    omega
  simp only [deleteExtraPoints, gt_iff_lt, hl, if_true, e, erase]
  simp

/-- Whatever the cap, a defined eviction keeps a prefix of the deque. -/
theorem deleteExtraPoints_prefix {P : Type} (m : Nat) (d kept : List P)
    (h : deleteExtraPoints m d = some kept) : kept <+: d := by
  by_cases hle : d.length ≤ m
  · rw [deleteExtraPoints_of_le m d hle] at h
    cases h
    exact List.prefix_refl _
  · have hgt : m < d.length := Nat.lt_of_not_le hle
    rcases Nat.eq_zero_or_pos m with h0 | hpos
    · subst h0
      have hne : d ≠ [] := by
        intro hd
        rw [hd] at hgt
        exact Nat.lt_irrefl 0 hgt
      rw [deleteExtraPoints_zero d hne] at h
      cases h
    · rw [deleteExtraPoints_of_gt m d hpos hgt] at h
      cases h
      exact List.take_prefix _ _

/-- A defined eviction leaves at most `m_max_points` points. -/
theorem deleteExtraPoints_length {P : Type} (m : Nat) (d kept : List P)
    (h : deleteExtraPoints m d = some kept) : kept.length ≤ m := by
  by_cases hle : d.length ≤ m
  · rw [deleteExtraPoints_of_le m d hle] at h
    cases h
    exact hle
  · have hgt : m < d.length := Nat.lt_of_not_le hle
    rcases Nat.eq_zero_or_pos m with h0 | hpos
    · subst h0
      have hne : d ≠ [] := by
        intro hd
        rw [hd] at hgt
        exact Nat.lt_irrefl 0 hgt
      rw [deleteExtraPoints_zero d hne] at h
      cases h
    · rw [deleteExtraPoints_of_gt m d hpos hgt] at h
      cases h
      rw [List.length_take]
      omega

/-- The state a tick leaves, given the outcome of the loop and of the eviction
step. -/
theorem processSamples_eq [Field α] (api : CaptureApi Dev α) (cos sin : α → α)
    (now now2 : Int) (cur : Nat) (s : Main Dev α) (kept : List (α × α))
    (hd : (sampleLoop (min s.m_sound_buffer.getSampleCount cur)
      (valuesLeft (toInt s.m_last_processed_sample)) (toInt s.m_last_processed_sample)).2
        = true)
    (hk : deleteExtraPoints s.m_max_points
      ((producedPoints cos sin cur s).reverse ++ s.m_points) = some kept) :
    processSamples api cos sin now now2 cur s =
      some (if now - s.m_recording_start_time > (s.m_recording_interval_ms : Int) * 1000000
        then commitSamples api now2
          { s with m_points := kept, m_last_processed_sample := cur }
        else { s with m_points := kept, m_last_processed_sample := cur }) := by
  simp only [producedPoints, requestedSamples] at hk
  simp only [processSamples, dueSamples, hd, if_true, foldl_emplace_front, hk,
    Option.bind_eq_bind, Option.some_bind, Option.pure_def]
  split <;> rfl

/-- A tick that returns a state has run its loop to the end and evicted. -/
theorem processSamples_some [Field α] (api : CaptureApi Dev α) (cos sin : α → α)
    (now now2 : Int) (cur : Nat) (s t : Main Dev α)
    (h : processSamples api cos sin now now2 cur s = some t) :
    (sampleLoop (min s.m_sound_buffer.getSampleCount cur)
      (valuesLeft (toInt s.m_last_processed_sample)) (toInt s.m_last_processed_sample)).2
        = true ∧
    ∃ kept, deleteExtraPoints s.m_max_points
        ((producedPoints cos sin cur s).reverse ++ s.m_points) = some kept := by
  by_cases hd : (sampleLoop (min s.m_sound_buffer.getSampleCount cur)
      (valuesLeft (toInt s.m_last_processed_sample)) (toInt s.m_last_processed_sample)).2
        = true
  · refine ⟨hd, ?_⟩
    cases hk : deleteExtraPoints s.m_max_points
        ((producedPoints cos sin cur s).reverse ++ s.m_points) with
    | none =>
      simp only [producedPoints, requestedSamples] at hk
      simp [processSamples, dueSamples, hd, foldl_emplace_front, hk] at h
    | some kept => exact ⟨kept, rfl⟩
  · simp [processSamples, dueSamples, hd] at h

end Lemmas

/-! ## The claims -/

section Claims

variable {Dev α : Type}

theorem processSamples_points [Field α] (api : CaptureApi Dev α) (cos sin : α → α)
    (now now2 : Int) (cur : Nat) (s t : Main Dev α)
    (h : processSamples api cos sin now now2 cur s = some t) :
    deleteExtraPoints s.m_max_points
      ((producedPoints cos sin cur s).reverse ++ s.m_points) = some t.m_points := by
  obtain ⟨hd, kept, hk⟩ := processSamples_some api cos sin now now2 cur s t h
  rw [processSamples_eq api cos sin now now2 cur s kept hd hk] at h
  rw [hk]
  injection h with h
  subst h
  split <;> rfl

/-- Cap after a tick: a tick that returns leaves at most `m_max_points` points. -/
theorem processSamples_length_le [Field α] (api : CaptureApi Dev α) (cos sin : α → α)
    (now now2 : Int) (cur : Nat) (s t : Main Dev α)
    (h : processSamples api cos sin now now2 cur s = some t) :
    t.m_points.length ≤ s.m_max_points :=
  deleteExtraPoints_length _ _ _ (processSamples_points api cos sin now now2 cur s t h)

/-- A tick does not change the cap. -/
theorem processSamples_max_points [Field α] (api : CaptureApi Dev α) (cos sin : α → α)
    (now now2 : Int) (cur : Nat) (s t : Main Dev α)
    (h : processSamples api cos sin now now2 cur s = some t) :
    t.m_max_points = s.m_max_points := by
  obtain ⟨hd, kept, hk⟩ := processSamples_some api cos sin now now2 cur s t h
  rw [processSamples_eq api cos sin now now2 cur s kept hd hk] at h
  injection h with h
  subst h
  split <;> rfl

/-- Cap along a run: with the history within the cap at the start, it is within
the cap after every event of a run of ticks and restarts. -/
theorem run_length_le [Field α] (api : CaptureApi Dev α) (cos sin : α → α) :
    ∀ (evs : List Event) (w0 w : Main Dev α × List (α × α)),
      w0.1.m_points.length ≤ w0.1.m_max_points → run api cos sin evs w0 = some w →
      w.1.m_points.length ≤ w.1.m_max_points := by
  intro evs
  induction evs with
  | nil =>
    intro w0 w h0 h
    simp only [run, Option.some.injEq] at h
    subst h
    exact h0
  | cons e es ih =>
    intro w0 w h0 h
    simp only [run] at h
    cases hs : step api cos sin e w0 with
    | none => simp [hs] at h
    | some w1 =>
      rw [hs] at h
      refine ih w1 w ?_ h
      cases e with
      | restart now =>
        simp only [step, Option.some.injEq] at hs
        subst hs
        exact h0
      | tick now now2 cur =>
        simp only [step] at hs
        cases ht : processSamples api cos sin now now2 cur w0.1 with
        | none => simp [ht] at hs
        | some t =>
          rw [ht] at hs
          simp only [Option.map_some', Option.some.injEq] at hs
          subst hs
          show t.m_points.length ≤ t.m_max_points
          rw [processSamples_max_points api cos sin now now2 cur w0.1 t ht]
          exact processSamples_length_le api cos sin now now2 cur w0.1 t ht

/-- C1 (code evaluated at the failing input). With `m_max_points = 3` the
eviction step applied to `[P4, P3, P2, P1]` erases from offset `2` and leaves
`[P4, P3]`, two points instead of three; a whole tick that prepends four points
to the empty history with that cap ends with the two newest points only. -/
theorem deleteExtraPoints_leaves_one_below_cap :
    (∀ (P : Type) (P1 P2 P3 P4 : P),
      deleteExtraPoints 3 [P4, P3, P2, P1] = some [P4, P3]) ∧
    Option.map Main.m_points
      (processSamples demoApi id id 4000000 4000000 4
        (demoMain VisualizationMode.Points 3 4 0 []))
      = some [(1000, -250), (500, 250)] ∧
    List.map (tracePoint id id (demoMain VisualizationMode.Points 3 4 0 [])) [0, 1, 2, 3]
      = [(-500, 1250), (0, 750), (500, 250), (1000, -250)] := by
  refine ⟨fun P P1 P2 P3 P4 => by simp [deleteExtraPoints, erase], ?_, ?_⟩
  · simp [processSamples, dueSamples, sampleLoop, valuesLeft, toInt, toSizeT, tracePoint,
      getSourceSignal, interpretSignal, deleteExtraPoints, erase, demoMain, demoBuffer]
    norm_num
  · simp [tracePoint, getSourceSignal, interpretSignal, demoMain, demoBuffer]
    norm_num

/-- C3 (code evaluated at the failing input). With `m_max_points = 0` a tick
that prepends one point to the empty history calls `erase` from offset `-1`,
before `begin()`: the tick has no defined result, so it does not end with an
empty history. -/
theorem processSamples_zero_cap_undefined :
    processSamples demoApi id id 1000000 1000000 1
      (demoMain VisualizationMode.Points 0 4 0 []) = none ∧
    deleteExtraPoints 0 [tracePoint id id (demoMain VisualizationMode.Points 0 4 0 []) 0]
      = none ∧
    erase [tracePoint id id (demoMain VisualizationMode.Points 0 4 0 []) 0] (-1) 1 = none := by
  refine ⟨?_, ?_, ?_⟩
  · simp [processSamples, dueSamples, sampleLoop, valuesLeft, toInt, toSizeT,
      deleteExtraPoints, erase, demoMain, demoBuffer]
  · simp [deleteExtraPoints, erase]
  · simp [erase]

/-- C5. `commitSamples` leaves `m_points` as it is and sets
`m_last_processed_sample` to 0; it sets `m_recording_start_time` to the clock
value, replaces the capture device and the buffer bound to it by what `commit`
(when recording) or `start` returns, and changes no other member. -/
theorem commitSamples_frame (api : CaptureApi Dev α) (now : Int) (s : Main Dev α) :
    (commitSamples api now s).m_points = s.m_points ∧
    (commitSamples api now s).m_last_processed_sample = 0 ∧
    (commitSamples api now s).m_recording_start_time = now ∧
    ((commitSamples api now s).m_capture_device, (commitSamples api now s).m_sound_buffer)
      = (if api.isRecording s.m_capture_device
          then api.commit s.m_capture_device s.m_sound_buffer
          else api.start s.m_capture_device s.m_sound_buffer) ∧
    (commitSamples api now s).m_visualization_mode = s.m_visualization_mode ∧
    (commitSamples api now s).m_x_axis_source = s.m_x_axis_source ∧
    (commitSamples api now s).m_y_axis_source = s.m_y_axis_source ∧
    (commitSamples api now s).m_signal_interpretation = s.m_signal_interpretation ∧
    (commitSamples api now s).m_render_texture_size = s.m_render_texture_size ∧
    (commitSamples api now s).m_max_points = s.m_max_points ∧
    (commitSamples api now s).m_recording_interval_ms = s.m_recording_interval_ms ∧
    (commitSamples api now s).m_x_amplification = s.m_x_amplification ∧
    (commitSamples api now s).m_y_amplification = s.m_y_amplification ∧
    (commitSamples api now s).m_thickness = s.m_thickness ∧
    (commitSamples api now s).m_color = s.m_color :=
  ⟨rfl, rfl, rfl, rfl, rfl, rfl, rfl, rfl, rfl, rfl, rfl, rfl, rfl, rfl, rfl⟩

/-- C6. For a buffer of `n > 0` samples whose format normalizes into `[0, 1]`,
`getSourceSignal` returns a value in `[-1, 1]` for every source and every index
below `n`; for the `Time` source the value is `2 * index / n - 1`. -/
theorem getSourceSignal_range {α : Type} [LinearOrderedField α] (b : SoundBuffer α)
    (source : SignalSource) (index : Nat) (hn : 0 < b.getSampleCount)
    (hi : index < b.getSampleCount)
    (hnorm : ∀ off, 0 ≤ b.normalizeSample off ∧ b.normalizeSample off ≤ 1) :
    (-1 ≤ getSourceSignal b source index ∧ getSourceSignal b source index ≤ 1) ∧
    getSourceSignal b SignalSource.Time index
      = 2 * (index : α) / (b.getSampleCount : α) - 1 := by
  have hpos : (0 : α) < (b.getSampleCount : α) := by exact_mod_cast hn
  have hq0 : (0 : α) ≤ (index : α) / (b.getSampleCount : α) :=
    div_nonneg (Nat.cast_nonneg _) hpos.le
  have hq1 : (index : α) / (b.getSampleCount : α) ≤ 1 := by
    rw [div_le_one hpos]
    exact_mod_cast hi.le
  refine ⟨?_, ?_⟩
  · cases source with
    | Time =>
      simp only [getSourceSignal]
      constructor <;> linarith
    | LeftChannel =>
      simp only [getSourceSignal]
      have h := hnorm (b.getSampleSize * index)
      constructor <;> linarith [h.1, h.2]
    | RightChannel =>
      simp only [getSourceSignal]
      have h := hnorm (b.getSampleSize * index + b.getBytesPerSample)
      constructor <;> linarith [h.1, h.2]
  · simp only [getSourceSignal]
    ring

theorem demoBuffer_normalized (count off : Nat) :
    0 ≤ (demoBuffer count).normalizeSample off ∧
      (demoBuffer count).normalizeSample off ≤ 1 := by
  have h : ((off % 8 : Nat) : ℚ) ≤ 8 := by
    exact_mod_cast (Nat.mod_lt off (by decide : 0 < 8)).le
  have h0 : (0 : ℚ) ≤ ((off % 8 : Nat) : ℚ) := Nat.cast_nonneg _
  constructor
  · show (0 : ℚ) ≤ ((off % 8 : Nat) : ℚ) / 8
    positivity
  · show ((off % 8 : Nat) : ℚ) / 8 ≤ 1
    rw [div_le_one (by norm_num)]
    exact h

/-- C6 on the right channel and on the time axis of a buffer of four frames,
at index 3. -/
theorem getSourceSignal_range_witness :
    (0 < (demoBuffer 4).getSampleCount ∧ 3 < (demoBuffer 4).getSampleCount ∧
      ∀ off, 0 ≤ (demoBuffer 4).normalizeSample off ∧
        (demoBuffer 4).normalizeSample off ≤ 1) ∧
    (-1 ≤ getSourceSignal (demoBuffer 4) SignalSource.RightChannel 3 ∧
      getSourceSignal (demoBuffer 4) SignalSource.RightChannel 3 ≤ 1) ∧
    getSourceSignal (demoBuffer 4) SignalSource.Time 3
      = 2 * ((3 : Nat) : ℚ) / (((demoBuffer 4).getSampleCount : Nat) : ℚ) - 1 :=
  ⟨⟨by decide, by decide, demoBuffer_normalized 4⟩,
   getSourceSignal_range (demoBuffer 4) SignalSource.RightChannel 3 (by decide) (by decide)
    (demoBuffer_normalized 4)⟩

/-- C7. `interpretSignal` returns `(a, b)` in Cartesian mode and
`(b * cos a, b * sin a)` in Polar mode; over the reals, Polar maps `(0, 1)` to
`(1, 0)` and `(π / 2, 1)` to `(0, 1)`. -/
theorem interpretSignal_spec :
    (∀ (α : Type) [Field α] (cos sin : α → α) (a b : α),
      interpretSignal cos sin SignalInterpretation.Cartesian (a, b) = (a, b) ∧
      interpretSignal cos sin SignalInterpretation.Polar (a, b) = (b * cos a, b * sin a)) ∧
    interpretSignal Real.cos Real.sin SignalInterpretation.Polar (0, 1) = (1, 0) ∧
    interpretSignal Real.cos Real.sin SignalInterpretation.Polar (Real.pi / 2, 1) = (0, 1) := by
  refine ⟨fun α _ cos sin a b => ⟨rfl, rfl⟩, ?_, ?_⟩
  · simp [interpretSignal]
  · simp [interpretSignal]

/-- C8 (counterexample). Cursor `2 ^ 32 + 2` with four committed samples: the
committed count is below the cursor, yet `int sample` starts at 2 and the tick
passes the samples 2 and 3 to `getSourceSignal`. -/
theorem narrowed_cursor_requests_samples :
    (demoMain VisualizationMode.Points 3 4 4294967298 []).m_sound_buffer.getSampleCount
      < (demoMain VisualizationMode.Points 3 4 4294967298 []).m_last_processed_sample ∧
    toInt 4294967298 = 2 ∧
    requestedSamples 4 (demoMain VisualizationMode.Points 3 4 4294967298 []) = [2, 3] ∧
    dueSamples (min 4 4) 4294967298 = some [2, 3] := by
  refine ⟨by decide, by decide, ?_, ?_⟩
  · simp [requestedSamples, sampleLoop, valuesLeft, toInt, toSizeT, demoMain, demoBuffer]
  · simp [dueSamples, sampleLoop, valuesLeft, toInt, toSizeT]

/-- C8 (amended). Every sample index a tick passes to `getSourceSignal` is below
the committed sample count of the buffer, whatever the cursor, the count and
`current_sample` are, and a loop that ends has passed exactly these indices.
When the count is below the cursor and the cursor is below `2 ^ 31`, the tick
requests no sample and its loop ends without error. -/
theorem requestedSamples_in_range (current_sample : Nat) (s : Main Dev α) :
    (∀ i ∈ requestedSamples current_sample s, i < s.m_sound_buffer.getSampleCount) ∧
    (∀ l, dueSamples (min s.m_sound_buffer.getSampleCount current_sample)
        s.m_last_processed_sample = some l → l = requestedSamples current_sample s) ∧
    (s.m_sound_buffer.getSampleCount < s.m_last_processed_sample →
      s.m_last_processed_sample < 2147483648 →
      requestedSamples current_sample s = [] ∧
      dueSamples (min s.m_sound_buffer.getSampleCount current_sample)
        s.m_last_processed_sample = some []) := by
  refine ⟨?_, ?_, ?_⟩
  · intro i hi
    have h := sampleLoop_lt _ _ _ i hi
    omega
  · intro l hl
    exact (dueSamples_eq_requested _ _ l hl).1
  · intro hlt hc
    have hcond : ¬ toSizeT (s.m_last_processed_sample : Int)
        < min s.m_sound_buffer.getSampleCount current_sample := by
      rw [toSizeT_natCast _ (by omega)]
      omega
    have hloop : (sampleLoop (min s.m_sound_buffer.getSampleCount current_sample)
          (valuesLeft (s.m_last_processed_sample : Int)) (s.m_last_processed_sample : Int)).1
          = [] ∧
        (sampleLoop (min s.m_sound_buffer.getSampleCount current_sample)
          (valuesLeft (s.m_last_processed_sample : Int)) (s.m_last_processed_sample : Int)).2
          = true := by
      have hv : valuesLeft (s.m_last_processed_sample : Int)
          = (valuesLeft (s.m_last_processed_sample : Int) - 1) + 1 := by
        unfold valuesLeft
        omega
      rw [hv]
      simp [sampleLoop, hcond]
    have hreq : requestedSamples current_sample s = [] := by
      unfold requestedSamples
      rw [toInt_of_lt _ hc]
      exact hloop.1
    have hdef : dueSamples (min s.m_sound_buffer.getSampleCount current_sample)
        s.m_last_processed_sample = some [] := by
      unfold dueSamples
      rw [toInt_of_lt _ hc]
      simp only [hloop.1, hloop.2, if_true]
    exact ⟨hreq, hdef⟩

/-- C8 (amended) on the default settings: cursor 0 with four committed samples,
and cursor 9 beyond them. -/
theorem requestedSamples_in_range_witness :
    (3 ∈ requestedSamples 4 (demoMain VisualizationMode.Points 3 4 0 []) ∧
      3 < (demoMain VisualizationMode.Points 3 4 0 []).m_sound_buffer.getSampleCount) ∧
    ((demoMain VisualizationMode.Points 3 4 9 [(1, 2)]).m_sound_buffer.getSampleCount
        < (demoMain VisualizationMode.Points 3 4 9 [(1, 2)]).m_last_processed_sample ∧
      (demoMain VisualizationMode.Points 3 4 9 [(1, 2)]).m_last_processed_sample < 2147483648) ∧
    (requestedSamples 4 (demoMain VisualizationMode.Points 3 4 9 [(1, 2)]) = [] ∧
      dueSamples
        (min (demoMain VisualizationMode.Points 3 4 9 [(1, 2)]).m_sound_buffer.getSampleCount 4)
        (demoMain VisualizationMode.Points 3 4 9 [(1, 2)]).m_last_processed_sample
        = some []) := by
  have hmem : 3 ∈ requestedSamples 4 (demoMain VisualizationMode.Points 3 4 0 []) := by
    simp [requestedSamples, sampleLoop, valuesLeft, toInt, toSizeT, demoMain, demoBuffer]
  exact ⟨⟨hmem, (requestedSamples_in_range 4
      (demoMain VisualizationMode.Points 3 4 0 [])).1 3 hmem⟩,
    ⟨by decide, by decide⟩,
    (requestedSamples_in_range 4 (demoMain VisualizationMode.Points 3 4 9 [(1, 2)])).2.2
      (by decide) (by decide)⟩

theorem run_prefix_log [Field α] (api : CaptureApi Dev α) (cos sin : α → α) :
    ∀ (evs : List Event) (w0 w : Main Dev α × List (α × α)),
      w0.1.m_points <+: w0.2 → run api cos sin evs w0 = some w → w.1.m_points <+: w.2 := by
  intro evs
  induction evs with
  | nil =>
    intro w0 w h0 h
    simp only [run, Option.some.injEq] at h
    subst h
    exact h0
  | cons e es ih =>
    intro w0 w h0 h
    simp only [run] at h
    cases hs : step api cos sin e w0 with
    | none => simp [hs] at h
    | some w1 =>
      rw [hs] at h
      refine ih w1 w ?_ h
      cases e with
      | restart now =>
        simp only [step, Option.some.injEq] at hs
        subst hs
        exact h0
      | tick now now2 cur =>
        simp only [step] at hs
        cases ht : processSamples api cos sin now now2 cur w0.1 with
        | none => simp [ht] at hs
        | some t =>
          rw [ht] at hs
          simp only [Option.map_some', Option.some.injEq] at hs
          subst hs
          have hk := deleteExtraPoints_prefix _ _ _
            (processSamples_points api cos sin now now2 cur w0.1 t ht)
          exact hk.trans ((List.prefix_append_right_inj _).mpr h0)

/-- With the cursor below `2 ^ 31`, the points of a tick that returns are those
of the samples `cursor, ..., upper_bound - 1`. -/
theorem producedPoints_of_lt [Field α] (api : CaptureApi Dev α) (cos sin : α → α)
    (now now2 : Int) (cur : Nat) (s t : Main Dev α)
    (h : processSamples api cos sin now now2 cur s = some t)
    (hc : s.m_last_processed_sample < 2147483648) :
    producedPoints cos sin cur s =
      (List.range' s.m_last_processed_sample
        (min s.m_sound_buffer.getSampleCount cur - s.m_last_processed_sample)).map
        (tracePoint cos sin s) := by
  obtain ⟨hd, _⟩ := processSamples_some api cos sin now now2 cur s t h
  have hdue : dueSamples (min s.m_sound_buffer.getSampleCount cur) s.m_last_processed_sample
      = some (requestedSamples cur s) := by
    simp [dueSamples, requestedSamples, hd]
  unfold producedPoints
  rw [dueSamples_of_lt _ _ _ hc hdue]

/-- C4 (counterexample). Cursor `2 ^ 32 + 2`, four committed samples,
`current_sample = 4`, empty history: the range `[cursor, upper_bound)` is empty,
yet the tick prepends the points of the samples 2 and 3, so the history after
the tick is not a prefix of the points of that range followed by the history
before. -/
theorem history_not_prefix_after_narrowed_cursor :
    processSamples demoApi id id 4000000 4000000 4
        (demoMain VisualizationMode.Points 3 4 4294967298 [])
      = some (demoMain VisualizationMode.Points 3 4 4 [(1000, -250), (500, 250)]) ∧
    ¬ ([((1000 : ℚ), (-250 : ℚ)), (500, 250)] <+:
        ((List.range' 4294967298 (min 4 4 - 4294967298)).map
          (tracePoint id id (demoMain VisualizationMode.Points 3 4 4294967298 []))).reverse
          ++ []) := by
  refine ⟨?_, ?_⟩
  · simp [processSamples, dueSamples, sampleLoop, valuesLeft, toInt, toSizeT, tracePoint,
      getSourceSignal, interpretSignal, deleteExtraPoints, erase, demoMain, demoBuffer]
    norm_num
  · simp

/-- C4 (amended). A tick that returns leaves a history that is a prefix of the
points it converted, newest first, followed by the history before the tick;
with the cursor below `2 ^ 31` these are the points of the samples
`cursor, ..., upper_bound - 1`, with `upper_bound = min count current_sample`.
Along any run of ticks and restarts, the history stays a prefix of the log of
all points in reverse order of production (the initial history counted as the
oldest): the point at position `i` of the history is the `i`-th most recently
produced point, so a point produced later stands strictly closer to the front. -/
theorem history_prefix_of_production_log [Field α] (api : CaptureApi Dev α)
    (cos sin : α → α) :
    (∀ (now now2 : Int) (cur : Nat) (s t : Main Dev α),
      processSamples api cos sin now now2 cur s = some t →
      t.m_points <+: (producedPoints cos sin cur s).reverse ++ s.m_points) ∧
    (∀ (now now2 : Int) (cur : Nat) (s t : Main Dev α),
      processSamples api cos sin now now2 cur s = some t →
      s.m_last_processed_sample < 2147483648 →
      t.m_points <+:
        ((List.range' s.m_last_processed_sample
            (min s.m_sound_buffer.getSampleCount cur - s.m_last_processed_sample)).map
          (tracePoint cos sin s)).reverse ++ s.m_points) ∧
    (∀ (evs : List Event) (s : Main Dev α) (w : Main Dev α × List (α × α)),
      run api cos sin evs (s, s.m_points) = some w → w.1.m_points <+: w.2) := by
  refine ⟨?_, ?_, ?_⟩
  · intro now now2 cur s t h
    exact deleteExtraPoints_prefix _ _ _ (processSamples_points api cos sin now now2 cur s t h)
  · intro now now2 cur s t h hc
    rw [← producedPoints_of_lt api cos sin now now2 cur s t h hc]
    exact deleteExtraPoints_prefix _ _ _ (processSamples_points api cos sin now now2 cur s t h)
  · intro evs s w h
    exact run_prefix_log api cos sin evs (s, s.m_points) w (List.prefix_refl _) h

/-- The tick of the default settings 4 ms into the window: four samples are
converted, the cap of three leaves two points. -/
theorem demo_first_tick :
    processSamples demoApi id id 4000000 4000000 4
        (demoMain VisualizationMode.Points 3 4 0 [])
      = some (demoMain VisualizationMode.Points 3 4 4 [(1000, -250), (500, 250)]) ∧
    producedPoints id id 4 (demoMain VisualizationMode.Points 3 4 0 [])
      = [(-500, 1250), (0, 750), (500, 250), (1000, -250)] := by
  refine ⟨?_, ?_⟩
  · simp [processSamples, dueSamples, sampleLoop, valuesLeft, toInt, toSizeT, tracePoint,
      getSourceSignal, interpretSignal, deleteExtraPoints, erase, demoMain, demoBuffer]
    norm_num
  · simp [producedPoints, requestedSamples, sampleLoop, valuesLeft, toInt, toSizeT, tracePoint,
      getSourceSignal, interpretSignal, demoMain, demoBuffer]
    norm_num

/-- The next tick, 60 ms into the window: nothing is left to convert and the
recording is restarted at time 60000001. -/
theorem demo_second_tick :
    processSamples demoApi id id 60000000 60000001 60
        (demoMain VisualizationMode.Points 3 4 4 [(1000, -250), (500, 250)])
      = some { demoMain VisualizationMode.Points 3 4 0 [(1000, -250), (500, 250)] with
               m_recording_start_time := 60000001 } ∧
    producedPoints id id 60
        (demoMain VisualizationMode.Points 3 4 4 [(1000, -250), (500, 250)]) = [] := by
  refine ⟨?_, ?_⟩
  · simp [processSamples, dueSamples, sampleLoop, valuesLeft, toInt, toSizeT,
      deleteExtraPoints, commitSamples, demoMain, demoBuffer, demoApi]
  · simp [producedPoints, requestedSamples, sampleLoop, valuesLeft, toInt, toSizeT, demoMain,
      demoBuffer]

/-- C4 (amended) on a tick that evicts, and on a run made of a restart, that
tick and a tick that restarts the recording. -/
theorem history_prefix_of_production_log_witness :
    (processSamples demoApi id id 4000000 4000000 4
        (demoMain VisualizationMode.Points 3 4 0 [])
      = some (demoMain VisualizationMode.Points 3 4 4 [(1000, -250), (500, 250)]) ∧
     (demoMain VisualizationMode.Points 3 4 0 []).m_last_processed_sample < 2147483648 ∧
     [((1000 : ℚ), (-250 : ℚ)), (500, 250)] <+:
        ((List.range' 0 (min 4 4 - 0)).map
          (tracePoint id id (demoMain VisualizationMode.Points 3 4 0 []))).reverse ++ []) ∧
    (run demoApi id id
        [Event.restart 0, Event.tick 4000000 4000000 4, Event.tick 60000000 60000001 60]
        (demoMain VisualizationMode.Points 3 4 0 [],
          (demoMain VisualizationMode.Points 3 4 0 []).m_points)
      = some ({ demoMain VisualizationMode.Points 3 4 0 [(1000, -250), (500, 250)] with
                m_recording_start_time := 60000001 },
              [(1000, -250), (500, 250), (0, 750), (-500, 1250)]) ∧
     [((1000 : ℚ), (-250 : ℚ)), (500, 250)]
      <+: [(1000, -250), (500, 250), (0, 750), (-500, 1250)]) := by
  have h1 := demo_first_tick.1
  have h0 : commitSamples demoApi 0 (demoMain VisualizationMode.Points 3 4 0 [])
      = demoMain VisualizationMode.Points 3 4 0 [] := rfl
  have h2 : run demoApi id id
      [Event.restart 0, Event.tick 4000000 4000000 4, Event.tick 60000000 60000001 60]
      (demoMain VisualizationMode.Points 3 4 0 [],
        (demoMain VisualizationMode.Points 3 4 0 []).m_points)
      = some ({ demoMain VisualizationMode.Points 3 4 0 [(1000, -250), (500, 250)] with
                m_recording_start_time := 60000001 },
              [(1000, -250), (500, 250), (0, 750), (-500, 1250)]) := by
    simp only [run, step, h0, demo_first_tick.1, demo_first_tick.2, demo_second_tick.1,
      demo_second_tick.2, Option.map_some', Option.some_bind, Option.bind_eq_bind]
    rfl
  exact ⟨⟨h1, by decide,
      (history_prefix_of_production_log demoApi id id).2.1 4000000 4000000 4 _ _ h1
        (by decide)⟩,
    h2, (history_prefix_of_production_log demoApi id id).2.2 _ _ _ h2⟩

/-- With a length of zero `NormalizeVector` has no value, and neither has
`DrawLine`. -/
theorem drawLine_eq_none {α C : Type} [Field α] [DecidableEq α]
    (toFloat toDouble sqrt : α → α) (a b : α × α) (color_a color_b : C) (thickness : α)
    (h : VectorLength toFloat sqrt (toFloat (b.1 - a.1), toFloat (b.2 - a.2)) = 0) :
    NormalizeVector toFloat toDouble sqrt (toFloat (b.1 - a.1), toFloat (b.2 - a.2)) = none ∧
    DrawLine toFloat toDouble sqrt a b color_a color_b thickness = none := by
  have hn : NormalizeVector toFloat toDouble sqrt (toFloat (b.1 - a.1), toFloat (b.2 - a.2))
      = none := by
    simp only [NormalizeVector, h, fdiv, if_true, Option.bind_eq_bind, Option.none_bind]
  refine ⟨hn, ?_⟩
  simp only [DrawLine, hn, Option.bind_eq_bind, Option.none_bind]

/-- The length `VectorLength` computes for the difference of a point with
itself is zero, as soon as rounding and square root map zero to zero. -/
theorem vectorLength_self {α : Type} [Field α] (toFloat sqrt : α → α)
    (hfloat : toFloat 0 = 0) (hsqrt : sqrt 0 = 0) (a : α × α) :
    VectorLength toFloat sqrt (toFloat (a.1 - a.1), toFloat (a.2 - a.2)) = 0 := by
  simp [VectorLength, hfloat, hsqrt]

/-- C9 (counterexample). For the identical endpoints `a = b = (1, 1)` the
vector `b - a` has length `sqrt 0 = 0`, `NormalizeVector` divides by it and has
no value, and neither has `DrawLine`: the segment is not skipped and no
fallback direction is substituted. -/
theorem DrawLine_identical_endpoints :
    VectorLength id Real.sqrt (id ((1 : ℝ) - 1), id ((1 : ℝ) - 1)) = 0 ∧
    NormalizeVector id id Real.sqrt (id ((1 : ℝ) - 1), id ((1 : ℝ) - 1)) = none ∧
    DrawLine id id Real.sqrt ((1 : ℝ), (1 : ℝ)) (1, 1) (255 : Nat) (255 : Nat) 4 = none := by
  have h : VectorLength id Real.sqrt (id ((1 : ℝ) - 1), id ((1 : ℝ) - 1)) = 0 :=
    vectorLength_self id Real.sqrt rfl Real.sqrt_zero (1, 1)
  exact ⟨h, (drawLine_eq_none id id Real.sqrt (1, 1) (1, 1) 255 255 4 h).1,
    (drawLine_eq_none id id Real.sqrt (1, 1) (1, 1) 255 255 4 h).2⟩

/-- C9 (amended). Degenerate geometry is not guarded: for identical endpoints
`a = b` the length of `b - a` that `NormalizeVector` divides by is zero, the
quotient has no value, and `DrawLine` neither skips the segment nor substitutes
a direction, so the undefined quotient reaches its vertices. Rounding and
square root are any functions that map zero to zero. -/
theorem DrawLine_unguarded_at_identical_endpoints {α C : Type} [Field α] [DecidableEq α]
    (toFloat toDouble sqrt : α → α) (hfloat : toFloat 0 = 0) (hsqrt : sqrt 0 = 0)
    (a : α × α) (color_a color_b : C) (thickness : α) :
    VectorLength toFloat sqrt (toFloat (a.1 - a.1), toFloat (a.2 - a.2)) = 0 ∧
    NormalizeVector toFloat toDouble sqrt (toFloat (a.1 - a.1), toFloat (a.2 - a.2)) = none ∧
    DrawLine toFloat toDouble sqrt a a color_a color_b thickness = none :=
  ⟨vectorLength_self toFloat sqrt hfloat hsqrt a,
   (drawLine_eq_none toFloat toDouble sqrt a a color_a color_b thickness
      (vectorLength_self toFloat sqrt hfloat hsqrt a)).1,
   (drawLine_eq_none toFloat toDouble sqrt a a color_a color_b thickness
      (vectorLength_self toFloat sqrt hfloat hsqrt a)).2⟩

/-- C9 (amended) over the reals without rounding, at the point `(3, 4)`. -/
theorem DrawLine_unguarded_at_identical_endpoints_witness :
    ((id : ℝ → ℝ) 0 = 0 ∧ Real.sqrt 0 = 0) ∧
    VectorLength id Real.sqrt (id ((3 : ℝ) - 3), id ((4 : ℝ) - 4)) = 0 ∧
    NormalizeVector id id Real.sqrt (id ((3 : ℝ) - 3), id ((4 : ℝ) - 4)) = none ∧
    DrawLine id id Real.sqrt ((3 : ℝ), (4 : ℝ)) (3, 4) (255 : Nat) (0 : Nat) 4 = none :=
  ⟨⟨rfl, Real.sqrt_zero⟩,
   DrawLine_unguarded_at_identical_endpoints id id Real.sqrt rfl Real.sqrt_zero
    ((3 : ℝ), (4 : ℝ)) (255 : Nat) (0 : Nat) 4⟩

theorem drawLoop_length {α : Type} (bound : Nat) (body : Nat → Option (DrawCall α)) :
    ∀ (fuel i : Nat), fuel = bound - i →
      (∀ j, i ≤ j → j < bound → ∃ call, body j = some call) →
      ∃ calls, drawLoop bound body fuel i = some calls ∧ calls.length = fuel := by
  intro fuel
  induction fuel with
  | zero => intro i _ _; exact ⟨[], rfl, rfl⟩
  | succ n ih =>
    intro i hf hb
    have hlt : i < bound := by omega
    obtain ⟨call, hcall⟩ := hb i (Nat.le_refl i) hlt
    obtain ⟨rest, hrest, hlen⟩ := ih (i + 1) (by omega) (fun j hj => hb j (by omega))
    refine ⟨call :: rest, ?_, by simp [hlen]⟩
    simp [drawLoop, hlt, hcall, hrest]

/-- Points mode draws one circle per point of the history. -/
theorem renderPoints_points_length {Dev α : Type} [Field α] (s : Main Dev α)
    (hmode : s.m_visualization_mode = VisualizationMode.Points) :
    ∃ calls, renderPoints s = some calls ∧ calls.length = s.m_points.length := by
  simp only [renderPoints, hmode]
  apply drawLoop_length
  · omega
  · intro j _ hj
    simp [List.getElem?_eq_getElem hj]

/-- Lines mode on a non-empty history of `n` points draws `n - 1` segments. -/
theorem renderPoints_lines_of_pos {Dev α : Type} [Field α] (s : Main Dev α)
    (hmode : s.m_visualization_mode = VisualizationMode.Lines)
    (hpos : 0 < s.m_points.length) (hsize : s.m_points.length < 2 ^ 64) :
    ∃ calls, renderPoints s = some calls ∧ calls.length = s.m_points.length - 1 := by
  have hb : linesBound s.m_points.length = s.m_points.length - 1 := by
    unfold linesBound
    omega
  simp only [renderPoints, hmode, hb]
  apply drawLoop_length
  · omega
  · intro j _ hj
    have h1 : j < s.m_points.length := by omega
    have h2 : j + 1 < s.m_points.length := by omega
    simp [List.getElem?_eq_getElem h1, List.getElem?_eq_getElem h2]

/-- C10 (code evaluated at the failing input). On an empty history the bound
`m_points.size() - 1` of the `Lines` loop is `2 ^ 64 - 1`, not `0`: the first
iteration reads `m_points[0]` and `m_points[1]` outside the deque, whatever the
other members are. The empty history is reached with `m_max_points = 1`: a tick
that prepends four points evicts down to no point. -/
theorem renderPoints_lines_empty_history :
    linesBound 0 = 18446744073709551615 ∧
    (∀ (Dev α : Type) [Field α] (s : Main Dev α),
      renderPoints { s with m_visualization_mode := VisualizationMode.Lines, m_points := [] }
        = none) ∧
    (∃ t, processSamples demoApi id id 4000000 4000000 4
        (demoMain VisualizationMode.Lines 1 4 0 []) = some t ∧
      t.m_points = [] ∧ renderPoints t = none) := by
  have hb : linesBound 0 = 18446744073709551614 + 1 := by
    unfold linesBound
    norm_num
  have hnone : ∀ (Dev α : Type) [Field α] (s : Main Dev α),
      renderPoints { s with m_visualization_mode := VisualizationMode.Lines, m_points := [] }
        = none := by
    intro Dev α _ s
    simp only [renderPoints, List.length_nil, hb]
    simp [drawLoop]
  refine ⟨by rw [hb], hnone, ?_⟩
  refine ⟨demoMain VisualizationMode.Lines 1 4 4 [], ?_, rfl, ?_⟩
  · simp [processSamples, dueSamples, sampleLoop, valuesLeft, toInt, toSizeT, tracePoint,
      getSourceSignal, interpretSignal, deleteExtraPoints, erase, demoMain, demoBuffer]
  · exact hnone Bool ℚ (demoMain VisualizationMode.Lines 1 4 4 [])

end Claims

end Oscilloscope
